import Mathlib

/-!
Shallow embedding of the `harvestui` terminal client (src/harvest-tui.go).

The program is a Bubble Tea application.  The parts relevant to the claims
are:

* the de-duplication loops of `GetProjects` (lines 172-186) and `GetTasks`
  (lines 219-233), which collapse time-entry projects/tasks into a Go map
  keyed by id and return its values;
* the `Model` record (lines 83-98) and the `Update` transition function
  (lines 339-476), including its fall-through to the text-input and list
  component updates (lines 455-473);
* the fragment of `View` (lines 530-533) that appends an inline error
  message.

Machine integers (`int`) carry ids only and are never subject to overflow
in the program, so they are modelled as `Int`.  The `Hours float64` field of
`Timer` is carried opaquely (it is only ever displayed, never computed
with), so it is modelled as an integer payload.  Go strings typed into the
notes field are modelled as `List Char`.  The Go map `map[int]Project`
(resp. `map[int]Task`) stores a value fully determined by its key and the
entry name, so it is modelled as an association list from id to name; Go map
iteration order is unspecified, so theorems speak about the map contents
(lookup and key multiset), never about the order of the returned slice.

The external Bubble Tea widgets (`textinput.Model`, `list.Model`) are
collaborators outside this repository: they are modelled by the fields the
program reads (`Value()`, `Focused()`, `Index()`, items) and an update
function that inserts typed runes / moves the cursor and ignores every
other message, which is the behaviour the program relies on.
-/

namespace HarvestTui

/-- Project (src/harvest-tui.go lines 51-54): `{ID int, Name string}`. -/
structure Project where
  id : Int
  name : String
  deriving DecidableEq

/-- Task (src/harvest-tui.go lines 57-60): `{ID int, Name string}`. -/
structure Task where
  id : Int
  name : String
  deriving DecidableEq

/-- Timer (src/harvest-tui.go lines 63-70).  `Hours float64` is carried
opaquely (never computed with), modelled as an integer payload. -/
structure Timer where
  id : Int
  notes : String
  hours : Int
  projectID : Int
  taskID : Int
  isRunning : Bool
  deriving DecidableEq

/-- ListItem for the bubbles list (src/harvest-tui.go lines 73-76). -/
structure ListItem where
  id : Int
  name : String
  deriving DecidableEq

/-- The fields of the external `textinput.Model` that the program reads:
`Value()` (as a rune list) and `Focused()`. -/
structure TextInput where
  value : List Char
  focused : Bool
  deriving DecidableEq

/-- The fields of the external `list.Model` that the program reads:
`Index()` (a Go `int`, defensively range-checked by the program) and the
items set by `SetItems`. -/
structure ListModel where
  index : Int
  items : List ListItem
  deriving DecidableEq

/-- Model (src/harvest-tui.go lines 83-98).  The `harvestClient` handle is
a capability used only inside commands and carries no state relevant to the
transition function, so it is not a field here. -/
structure Model where
  state : String
  projects : List Project
  tasks : List Task
  selectedProject : Project
  selectedTask : Task
  ticketInput : TextInput
  projectList : ListModel
  taskList : ListModel
  activeTimer : Option Timer
  error : String
  success : String
  quitting : Bool
  showHelp : Bool
  deriving DecidableEq

/-- Keyboard messages (`tea.KeyMsg`).  A rune key carries the runes typed
in that keypress; special keys are the ones the program matches on or feeds
to the widgets. -/
inductive Key where
  | runes (cs : List Char)
  | enter
  | esc
  | ctrlC
  | up
  | down
  | backspace
  deriving DecidableEq

/-- `msg.String()` for the keys modelled here. -/
def Key.string : Key → String
  | .runes cs => String.mk cs
  | .enter => "enter"
  | .esc => "esc"
  | .ctrlC => "ctrl+c"
  | .up => "up"
  | .down => "down"
  | .backspace => "backspace"

/-- The message union consumed by `Update` (src/harvest-tui.go lines
325-331 plus `tea.KeyMsg` and `tea.WindowSizeMsg`).  `startTimerMsg`
carries the timer built by a successful `StartTimer` call (the Go `*Timer`
is non-nil on that path, line 584). -/
inductive Msg where
  | key (k : Key)
  | fetchProjectsMsg (projects : List Project)
  | fetchTasksMsg (tasks : List Task)
  | startTimerMsg (timer : Timer)
  | stopTimerMsg (success : Bool)
  | errorMsg (error : String)
  | windowSize (width height : Int)
  deriving DecidableEq

/-- The commands `Update` can return (`tea.Quit` and the four constructors
at src/harvest-tui.go lines 556-597; `Cmd.none` is Go `nil`). -/
inductive Cmd where
  | none
  | quit
  | fetchProjects
  | fetchTasks (projectID : Int)
  | startTimer (projectID taskID : Int) (notes : List Char)
  | stopTimer (timerID : Int)
  deriving DecidableEq

/-- Behaviour of the external `textinput.Model.Update` as relied on by the
program: when focused it inserts typed runes and deletes on backspace; it
ignores every other message. -/
def TextInput.update (ti : TextInput) (msg : Msg) : TextInput :=
  match msg with
  | .key (.runes cs) => if ti.focused then { ti with value := ti.value ++ cs } else ti
  | .key .backspace => if ti.focused then { ti with value := ti.value.dropLast } else ti
  | _ => ti

/-- Behaviour of the external `list.Model.Update` as relied on by the
program: up/down move the cursor; every other message leaves the fields the
program reads unchanged. -/
def ListModel.update (l : ListModel) (msg : Msg) : ListModel :=
  match msg with
  | .key .up => { l with index := max 0 (l.index - 1) }
  | .key .down => { l with index := min ((l.items.length : Int) - 1) (l.index + 1) }
  | _ => l

/-- Go map assignment `mp[k] = v`: replace the binding for `k` if present,
otherwise add one. -/
def mapAssign (mp : List (Int × String)) (k : Int) (v : String) : List (Int × String) :=
  match mp with
  | [] => [(k, v)]
  | e :: rest => if e.1 = k then (k, v) :: rest else e :: mapAssign rest k v

/-- The de-duplication loop of `GetProjects` (src/harvest-tui.go lines
172-186): each time entry's project is assigned into `projectMap` keyed by
id; the function returns the map contents.  (The stored Go value
`Project{ID, Name}` is determined by the key and the name, so the map is
modelled as id to name; the returned slice lists the map contents in
unspecified order.) -/
def GetProjects (entries : List Project) : List (Int × String) :=
  entries.foldl (fun mp e => mapAssign mp e.id e.name) []

/-- The de-duplication loop of `GetTasks` (src/harvest-tui.go lines
219-233), identical in structure to `GetProjects`. -/
def GetTasks (entries : List Task) : List (Int × String) :=
  entries.foldl (fun mp e => mapAssign mp e.id e.name) []

/-- Lookup of the name bound to id `k` in the collapsed map. -/
def lookupName : List (Int × String) → Int → Option String
  | [], _ => none
  | e :: rest, k => if e.1 = k then some e.2 else lookupName rest k

/-- Spec-side definition (the claim's words): the first-seen name carried
by id `k` among the time entries. -/
def firstSeenName : List (Int × String) → Int → Option String
  | [], _ => none
  | e :: rest, k => if e.1 = k then some e.2 else firstSeenName rest k

/-- Spec-side definition for the amended claim: the last-seen name carried
by id `k` among the time entries. -/
def lastSeenName : List (Int × String) → Int → Option String
  | [], _ => none
  | e :: rest, k =>
    match lastSeenName rest k with
    | some v => some v
    | none => if e.1 = k then some e.2 else none

/-- initialModel (src/harvest-tui.go lines 293-322): state
`loading_projects`, focused empty notes input, empty lists; the remaining
fields are Go zero values. -/
def initialModel : Model :=
  { state := "loading_projects"
    projects := []
    tasks := []
    selectedProject := { id := 0, name := "" }
    selectedTask := { id := 0, name := "" }
    ticketInput := { value := [], focused := true }
    projectList := { index := 0, items := [] }
    taskList := { index := 0, items := [] }
    activeTimer := none
    error := ""
    success := ""
    quitting := false
    showHelp := false }

/-- Init (src/harvest-tui.go lines 334-336): the first command fetches the
project list. -/
def Model.init (_ : Model) : Cmd :=
  Cmd.fetchProjects

/-- The component-update tail of `Update` (src/harvest-tui.go lines
455-473): in `enter_details` with the input focused the message goes to
the text input; in the selection states it goes to the corresponding list;
otherwise nothing happens.  These widget updates return no command that
the program depends on. -/
def handleComponentUpdates (m : Model) (msg : Msg) : Model × Cmd :=
  if m.state = "enter_details" ∧ m.ticketInput.focused = true then
    ({ m with ticketInput := m.ticketInput.update msg }, Cmd.none)
  else if m.state = "select_project" then
    ({ m with projectList := m.projectList.update msg }, Cmd.none)
  else if m.state = "select_task" then
    ({ m with taskList := m.taskList.update msg }, Cmd.none)
  else
    (m, Cmd.none)

/-- The `case "enter"` body of `Update` (src/harvest-tui.go lines 363-405),
entered after `m.error` and `m.success` have been cleared.  Branches that
return inside the Go switch are the explicit results; falling out of the
switch reaches the component updates. -/
def handleEnter (m : Model) (msg : Msg) : Model × Cmd :=
  if m.state = "select_project" then
    if 0 < m.projects.length ∧ 0 ≤ m.projectList.index ∧
        m.projectList.index < (m.projects.length : Int) then
      let p := m.projects.getD m.projectList.index.toNat { id := 0, name := "" }
      ({ m with selectedProject := p, state := "loading_tasks" }, Cmd.fetchTasks p.id)
    else handleComponentUpdates m msg
  else if m.state = "select_task" then
    if 0 < m.tasks.length ∧ 0 ≤ m.taskList.index ∧
        m.taskList.index < (m.tasks.length : Int) then
      let t := m.tasks.getD m.taskList.index.toNat { id := 0, name := "" }
      ({ m with selectedTask := t, state := "enter_details",
                ticketInput := { m.ticketInput with focused := true } }, Cmd.none)
    else handleComponentUpdates m msg
  else if m.state = "enter_details" then
    if m.ticketInput.value = [] then
      ({ m with error := "Please enter ticket number and description" }, Cmd.none)
    else
      match m.activeTimer with
      | some t => (m, Cmd.stopTimer t.id)
      | none =>
        (m, Cmd.startTimer m.selectedProject.id m.selectedTask.id m.ticketInput.value)
  else handleComponentUpdates m msg

/-- Update (src/harvest-tui.go lines 339-476).  Key messages are
dispatched on `msg.String()`; quit and help toggling are handled before
any state dispatch; `esc` dismisses the help overlay first, otherwise pops
`select_task`/`enter_details`; `enter` clears the error/success lines and
runs `handleEnter`.  The non-key messages update their fields and, like
unmatched keys, fall through to the component updates. -/
def update (m : Model) (msg : Msg) : Model × Cmd :=
  match msg with
  | .key k =>
    if k.string = "ctrl+c" ∨ k.string = "q" then
      ({ m with quitting := true }, Cmd.quit)
    else if k.string = "?" then
      ({ m with showHelp := !m.showHelp }, Cmd.none)
    else if k.string = "esc" then
      if m.showHelp then ({ m with showHelp := false }, Cmd.none)
      else if m.state = "select_task" then ({ m with state := "select_project" }, Cmd.none)
      else if m.state = "enter_details" then ({ m with state := "select_task" }, Cmd.none)
      else handleComponentUpdates m msg
    else if k.string = "enter" then
      handleEnter { m with error := "", success := "" } msg
    else handleComponentUpdates m msg
  | .fetchProjectsMsg ps =>
    handleComponentUpdates
      { m with projects := ps, state := "select_project",
               projectList := { m.projectList with
                                items := ps.map (fun p => { id := p.id, name := p.name }) } }
      msg
  | .fetchTasksMsg ts =>
    handleComponentUpdates
      { m with tasks := ts, state := "select_task",
               taskList := { m.taskList with
                             items := ts.map (fun t => { id := t.id, name := t.name }) } }
      msg
  | .startTimerMsg t =>
    handleComponentUpdates
      { m with activeTimer := some t,
               success := "Timer started for: " ++ String.mk m.ticketInput.value }
      msg
  | .stopTimerMsg ok =>
    handleComponentUpdates
      (if ok then { m with success := "Timer stopped", activeTimer := none }
       else { m with error := "Failed to stop timer" })
      msg
  | .errorMsg e =>
    handleComponentUpdates
      { m with error := e,
               state := if m.state = "loading_projects" ∨ m.state = "loading_tasks"
                        then "error" else m.state }
      msg
  | .windowSize _ _ =>
    -- tea.WindowSizeMsg (lines 448-452) only resizes the list viewports,
    -- which is presentation state the transition claims never read.
    handleComponentUpdates m msg

/-- Deliver a list of events to the transition function in order. -/
def runEvents (m : Model) : List Msg → Model
  | [] => m
  | e :: es => runEvents (update m e).1 es

/-- The inline error fragment of `View` (src/harvest-tui.go lines
530-533): an error line is appended when `m.error` is non-empty and the
state is not the error screen (which renders the message itself). -/
def showsInlineError (m : Model) : Bool :=
  m.error != "" && m.state != "error"

/-- A message is "directly typed" when any rune keypress it carries is a
single character (one keystroke per character, as opposed to a multi-rune
paste event). -/
def typedMsg : Msg → Bool
  | .key (.runes cs) => cs.length == 1
  | _ => true

/-! ### Preservation lemmas for the component-update tail -/

theorem hcu_cmd (m : Model) (msg : Msg) :
    (handleComponentUpdates m msg).2 = Cmd.none := by
  unfold handleComponentUpdates
  split
  · rfl
  · split
    · rfl
    · split <;> rfl

theorem hcu_state (m : Model) (msg : Msg) :
    (handleComponentUpdates m msg).1.state = m.state := by
  unfold handleComponentUpdates
  split
  · rfl
  · split
    · rfl
    · split <;> rfl

theorem hcu_projects (m : Model) (msg : Msg) :
    (handleComponentUpdates m msg).1.projects = m.projects := by
  unfold handleComponentUpdates
  split
  · rfl
  · split
    · rfl
    · split <;> rfl

theorem hcu_tasks (m : Model) (msg : Msg) :
    (handleComponentUpdates m msg).1.tasks = m.tasks := by
  unfold handleComponentUpdates
  split
  · rfl
  · split
    · rfl
    · split <;> rfl

theorem hcu_selectedProject (m : Model) (msg : Msg) :
    (handleComponentUpdates m msg).1.selectedProject = m.selectedProject := by
  unfold handleComponentUpdates
  split
  · rfl
  · split
    · rfl
    · split <;> rfl

theorem hcu_selectedTask (m : Model) (msg : Msg) :
    (handleComponentUpdates m msg).1.selectedTask = m.selectedTask := by
  unfold handleComponentUpdates
  split
  · rfl
  · split
    · rfl
    · split <;> rfl

theorem hcu_activeTimer (m : Model) (msg : Msg) :
    (handleComponentUpdates m msg).1.activeTimer = m.activeTimer := by
  unfold handleComponentUpdates
  split
  · rfl
  · split
    · rfl
    · split <;> rfl

theorem hcu_error (m : Model) (msg : Msg) :
    (handleComponentUpdates m msg).1.error = m.error := by
  unfold handleComponentUpdates
  split
  · rfl
  · split
    · rfl
    · split <;> rfl

theorem hcu_success (m : Model) (msg : Msg) :
    (handleComponentUpdates m msg).1.success = m.success := by
  unfold handleComponentUpdates
  split
  · rfl
  · split
    · rfl
    · split <;> rfl

/-! ### The collapse-by-id maps of GetProjects and GetTasks -/

theorem mapAssign_cons_pos (e : Int × String) (rest : List (Int × String)) (k : Int)
    (v : String) (h : e.1 = k) : mapAssign (e :: rest) k v = (k, v) :: rest := by
  simp [mapAssign, h]

theorem mapAssign_cons_neg (e : Int × String) (rest : List (Int × String)) (k : Int)
    (v : String) (h : ¬ e.1 = k) : mapAssign (e :: rest) k v = e :: mapAssign rest k v := by
  simp [mapAssign, h]

theorem lookupName_mapAssign (mp : List (Int × String)) (k : Int) (v : String) (j : Int) :
    lookupName (mapAssign mp k v) j = if k = j then some v else lookupName mp j := by
  induction mp with
  | nil => simp [mapAssign, lookupName]
  | cons e rest ih =>
    by_cases hek : e.1 = k
    · rw [mapAssign_cons_pos e rest k v hek]
      by_cases hkj : k = j
      · simp [lookupName, hek, hkj]
      · have hej : ¬ e.1 = j := by rw [hek]; exact hkj
        simp [lookupName, hkj, hej]
    · rw [mapAssign_cons_neg e rest k v hek]
      by_cases hej : e.1 = j
      · have hkj : ¬ k = j := fun h => hek (by rw [hej, h])
        simp [lookupName, hej, hkj]
      · simp [lookupName, hej, ih]

theorem mem_keys_mapAssign (mp : List (Int × String)) (k : Int) (v : String) (j : Int) :
    j ∈ (mapAssign mp k v).map Prod.fst ↔ j = k ∨ j ∈ mp.map Prod.fst := by
  induction mp with
  | nil => simp [mapAssign]
  | cons e rest ih =>
    by_cases hek : e.1 = k
    · rw [mapAssign_cons_pos e rest k v hek]
      simp only [List.map_cons, List.mem_cons, hek]
      tauto
    · rw [mapAssign_cons_neg e rest k v hek]
      simp only [List.map_cons, List.mem_cons, ih]
      tauto

theorem nodup_keys_mapAssign (mp : List (Int × String)) (k : Int) (v : String)
    (h : (mp.map Prod.fst).Nodup) : ((mapAssign mp k v).map Prod.fst).Nodup := by
  induction mp with
  | nil => simp [mapAssign]
  | cons e rest ih =>
    simp only [List.map_cons, List.nodup_cons] at h
    by_cases hek : e.1 = k
    · rw [mapAssign_cons_pos e rest k v hek, List.map_cons, List.nodup_cons]
      exact ⟨hek ▸ h.1, h.2⟩
    · rw [mapAssign_cons_neg e rest k v hek, List.map_cons, List.nodup_cons]
      refine ⟨?_, ih h.2⟩
      rw [mem_keys_mapAssign]
      rintro (h1 | h2)
      · exact hek h1
      · exact h.1 h2

theorem nodup_keys_foldl (es : List (Int × String)) :
    ∀ acc : List (Int × String), (acc.map Prod.fst).Nodup →
      ((es.foldl (fun mp e => mapAssign mp e.1 e.2) acc).map Prod.fst).Nodup := by
  induction es with
  | nil => intro acc h; simpa using h
  | cons e rest ih => intro acc h; exact ih _ (nodup_keys_mapAssign _ _ _ h)

theorem lookupName_foldl (es : List (Int × String)) :
    ∀ (acc : List (Int × String)) (j : Int),
      lookupName (es.foldl (fun mp e => mapAssign mp e.1 e.2) acc) j =
        match lastSeenName es j with
        | some v => some v
        | none => lookupName acc j := by
  induction es with
  | nil => intro acc j; simp [lastSeenName]
  | cons e rest ih =>
    intro acc j
    simp only [List.foldl_cons, ih, lookupName_mapAssign, lastSeenName]
    cases lastSeenName rest j with
    | some v => rfl
    | none => by_cases h : e.1 = j <;> simp [h]

theorem GetProjects_eq_foldl (entries : List Project) :
    GetProjects entries =
      (entries.map (fun p => (p.id, p.name))).foldl (fun mp e => mapAssign mp e.1 e.2) [] := by
  rw [List.foldl_map]
  rfl

theorem GetTasks_eq_foldl (entries : List Task) :
    GetTasks entries =
      (entries.map (fun t => (t.id, t.name))).foldl (fun mp e => mapAssign mp e.1 e.2) [] := by
  rw [List.foldl_map]
  rfl

theorem lookupName_GetProjects (entries : List Project) (j : Int) :
    lookupName (GetProjects entries) j =
      lastSeenName (entries.map (fun p => (p.id, p.name))) j := by
  rw [GetProjects_eq_foldl, lookupName_foldl]
  cases lastSeenName (entries.map (fun p => (p.id, p.name))) j <;> simp [lookupName]

theorem lookupName_GetTasks (entries : List Task) (j : Int) :
    lookupName (GetTasks entries) j =
      lastSeenName (entries.map (fun t => (t.id, t.name))) j := by
  rw [GetTasks_eq_foldl, lookupName_foldl]
  cases lastSeenName (entries.map (fun t => (t.id, t.name))) j <;> simp [lookupName]

/-- Two time entries carrying the same project id with different names. -/
def c1Entries : List Project := [{ id := 1, name := "Alpha" }, { id := 1, name := "Beta" }]

/-- C1: counterexample to the claim as stated.  When two time entries carry
the same id, the Go map assignment overwrites, so the name kept for the id
is the last-seen name "Beta", not the first-seen name "Alpha". -/
theorem c1_first_seen_counterexample :
    lookupName (GetProjects c1Entries) 1 = some "Beta" ∧
    firstSeenName (c1Entries.map (fun p => (p.id, p.name))) 1 = some "Alpha" ∧
    lookupName (GetProjects c1Entries) 1 ≠
      firstSeenName (c1Entries.map (fun p => (p.id, p.name))) 1 := by
  refine ⟨rfl, rfl, ?_⟩
  decide

/-- C1 (amended): the lists returned by GetProjects and GetTasks are
collapsed to unique ids, and for each id the name kept is the last-seen
name among the time entries carrying that id. -/
theorem c1_collapse_unique_ids_last_seen (pes : List Project) (tes : List Task) (k : Int) :
    ((GetProjects pes).map Prod.fst).Nodup ∧
    lookupName (GetProjects pes) k = lastSeenName (pes.map (fun p => (p.id, p.name))) k ∧
    ((GetTasks tes).map Prod.fst).Nodup ∧
    lookupName (GetTasks tes) k = lastSeenName (tes.map (fun t => (t.id, t.name))) k := by
  refine ⟨?_, lookupName_GetProjects pes k, ?_, lookupName_GetTasks tes k⟩
  · rw [GetProjects_eq_foldl]
    exact nodup_keys_foldl _ [] (by simp)
  · rw [GetTasks_eq_foldl]
    exact nodup_keys_foldl _ [] (by simp)

/-! ### Concrete data used in scenarios -/

/-- A running timer used in the concrete transition scenarios. -/
def timerA : Timer :=
  { id := 7, notes := "TCK-1 - fix", hours := 0, projectID := 1, taskID := 10,
    isRunning := true }

/-- A task list entry used in the concrete transition scenarios. -/
def taskA : Task := { id := 10, name := "Build" }

/-! ### C2 -/

/-- EnteringDetails with an active timer and an empty notes field. -/
def c2Model : Model :=
  { initialModel with state := "enter_details", activeTimer := some timerA }

/-- C2: counterexample to the claim as stated.  In EnteringDetails with
activeTimer set but the notes field empty, confirm does not issue
stopTimer(activeTimer.id): the empty-notes validation check runs first, so
no command is returned and the validation error is set. -/
theorem c2_counterexample :
    (update c2Model (Msg.key Key.enter)).2 = Cmd.none ∧
    (update c2Model (Msg.key Key.enter)).2 ≠ Cmd.stopTimer timerA.id ∧
    (update c2Model (Msg.key Key.enter)).1.error =
      "Please enter ticket number and description" := by
  refine ⟨rfl, ?_, rfl⟩
  decide

/-- C2 (amended): in the EnteringDetails state with activeTimer set and
the notes field non-empty, a confirm event keeps the state EnteringDetails
and issues stopTimer(activeTimer.id); the only model change is clearing
the error and success lines. -/
theorem c2_confirm_nonempty_notes_stops_timer (m : Model) (t : Timer)
    (hs : m.state = "enter_details") (ht : m.activeTimer = some t)
    (hv : ¬ m.ticketInput.value = []) :
    update m (Msg.key Key.enter) =
      ({ m with error := "", success := "" }, Cmd.stopTimer t.id) := by
  simp [update, Key.string, handleEnter, hs, ht, hv]

/-- EnteringDetails with an active timer and a non-empty notes field. -/
def c2WitnessModel : Model :=
  { initialModel with state := "enter_details", activeTimer := some timerA,
                      ticketInput := { value := ['x'], focused := true } }

theorem c2_witness :
    c2WitnessModel.state = "enter_details" ∧
    c2WitnessModel.activeTimer = some timerA ∧
    ¬ c2WitnessModel.ticketInput.value = [] ∧
    update c2WitnessModel (Msg.key Key.enter) =
      ({ c2WitnessModel with error := "", success := "" }, Cmd.stopTimer timerA.id) :=
  ⟨rfl, rfl, by decide,
   c2_confirm_nonempty_notes_stops_timer c2WitnessModel timerA rfl rfl (by decide)⟩

/-! ### C3 -/

/-- SelectingTask holding the task list fetched for the previous project. -/
def c3Model : Model :=
  { initialModel with state := "select_task", tasks := [taskA] }

/-- C3: counterexample to the claim as stated.  A back event in
SelectingTask returns to project selection but does not discard the Task
list fetched for the previously selected project: it is still present. -/
theorem c3_counterexample :
    (update c3Model (Msg.key Key.esc)).1.state = "select_project" ∧
    (update c3Model (Msg.key Key.esc)).1.tasks = [taskA] ∧
    (update c3Model (Msg.key Key.esc)).1.tasks ≠ [] := by
  refine ⟨rfl, rfl, ?_⟩
  decide

/-- C3 (amended): the back event in SelectingTask returns to
SelectingProject leaving the tasks field unchanged (the stale list is
retained, not discarded); staleness is instead avoided because a select in
SelectingProject always moves to LoadingTasks issuing a fresh fetchTasks
for the selected project, and the tasks-arrival message overwrites the
task list before SelectingTask is entered from it. -/
theorem c3_back_keeps_tasks_refetch_on_select (m : Model) :
    (m.showHelp = false → m.state = "select_task" →
      update m (Msg.key Key.esc) = ({ m with state := "select_project" }, Cmd.none)) ∧
    (m.state = "select_project" →
      (0 < m.projects.length ∧ 0 ≤ m.projectList.index ∧
        m.projectList.index < (m.projects.length : Int)) →
      (update m (Msg.key Key.enter)).1.state = "loading_tasks" ∧
      (update m (Msg.key Key.enter)).2 =
        Cmd.fetchTasks
          (m.projects.getD m.projectList.index.toNat { id := 0, name := "" }).id) ∧
    (∀ ts : List Task,
      (update m (Msg.fetchTasksMsg ts)).1.tasks = ts ∧
      (update m (Msg.fetchTasksMsg ts)).1.state = "select_task") := by
  refine ⟨?_, ?_, ?_⟩
  · intro hh hs
    simp [update, Key.string, hh, hs]
  · intro hs hcond
    constructor
    · simp [update, Key.string, handleEnter, hs, hcond]
    · simp [update, Key.string, handleEnter, hs, hcond]
  · intro ts
    constructor
    · simp only [update]
      rw [hcu_tasks]
    · simp only [update]
      rw [hcu_state]

/-- SelectingProject with one project highlighted, used to exercise the
amended C3 statement end to end. -/
def c3WitnessModel : Model :=
  { initialModel with state := "select_project", projects := [{ id := 1, name := "Alpha" }] }

theorem c3_witness :
    (c3Model.showHelp = false ∧ c3Model.state = "select_task" ∧
      update c3Model (Msg.key Key.esc) =
        ({ c3Model with state := "select_project" }, Cmd.none)) ∧
    (c3WitnessModel.state = "select_project" ∧
      (0 < c3WitnessModel.projects.length ∧ 0 ≤ c3WitnessModel.projectList.index ∧
        c3WitnessModel.projectList.index < (c3WitnessModel.projects.length : Int)) ∧
      (update c3WitnessModel (Msg.key Key.enter)).1.state = "loading_tasks" ∧
      (update c3WitnessModel (Msg.key Key.enter)).2 =
        Cmd.fetchTasks
          (c3WitnessModel.projects.getD c3WitnessModel.projectList.index.toNat
            { id := 0, name := "" }).id) ∧
    ((update c3Model (Msg.fetchTasksMsg [taskA])).1.tasks = [taskA] ∧
      (update c3Model (Msg.fetchTasksMsg [taskA])).1.state = "select_task") :=
  ⟨⟨rfl, rfl, (c3_back_keeps_tasks_refetch_on_select c3Model).1 rfl rfl⟩,
   ⟨rfl, by decide,
    (c3_back_keeps_tasks_refetch_on_select c3WitnessModel).2.1 rfl (by decide)⟩,
   (c3_back_keeps_tasks_refetch_on_select c3Model).2.2 [taskA]⟩

/-! ### C4 -/

/-- C4: after a successful startTimer completion event the active timer is
exactly the timer entry returned by the client (in particular non-null);
after a successful stopTimer completion event it is null. -/
theorem c4_activeTimer_start_stop (m : Model) (t : Timer) :
    (update m (Msg.startTimerMsg t)).1.activeTimer = some t ∧
    (update m (Msg.stopTimerMsg true)).1.activeTimer = none := by
  constructor
  · simp only [update]
    rw [hcu_activeTimer]
  · simp only [update]
    rw [hcu_activeTimer]
    simp

/-! ### C5 -/

/-- C5: in EnteringDetails with no active timer, confirm with an empty
notes field issues no command (in particular no startTimer), leaves
activeTimer unchanged, keeps the state EnteringDetails, and sets the
validation error, which the view renders inline. -/
theorem c5_empty_notes_validation (m : Model)
    (hs : m.state = "enter_details") (_ht : m.activeTimer = none)
    (hv : m.ticketInput.value = []) :
    update m (Msg.key Key.enter) =
      ({ m with error := "Please enter ticket number and description",
                success := "" }, Cmd.none) ∧
    showsInlineError (update m (Msg.key Key.enter)).1 = true := by
  have h1 : update m (Msg.key Key.enter) =
      ({ m with error := "Please enter ticket number and description",
                success := "" }, Cmd.none) := by
    simp [update, Key.string, handleEnter, hs, hv]
  refine ⟨h1, ?_⟩
  rw [h1]
  simp [showsInlineError, hs]

/-- EnteringDetails with no active timer and empty notes. -/
def c5Model : Model := { initialModel with state := "enter_details" }

theorem c5_witness :
    c5Model.state = "enter_details" ∧ c5Model.activeTimer = none ∧
    c5Model.ticketInput.value = [] ∧
    (update c5Model (Msg.key Key.enter) =
      ({ c5Model with error := "Please enter ticket number and description",
                      success := "" }, Cmd.none) ∧
     showsInlineError (update c5Model (Msg.key Key.enter)).1 = true) :=
  ⟨rfl, rfl, rfl, c5_empty_notes_validation c5Model rfl rfl rfl⟩

/-! ### C8 -/

/-- C8: in SelectingProject or SelectingTask, a select event with an empty
candidate list or an out-of-range highlighted index leaves the state
variant and activeTimer unchanged and issues no command. -/
theorem c8_invalid_select_noop (m : Model)
    (h : (m.state = "select_project" ∧
          ¬ (0 < m.projects.length ∧ 0 ≤ m.projectList.index ∧
             m.projectList.index < (m.projects.length : Int))) ∨
         (m.state = "select_task" ∧
          ¬ (0 < m.tasks.length ∧ 0 ≤ m.taskList.index ∧
             m.taskList.index < (m.tasks.length : Int)))) :
    (update m (Msg.key Key.enter)).1.state = m.state ∧
    (update m (Msg.key Key.enter)).1.activeTimer = m.activeTimer ∧
    (update m (Msg.key Key.enter)).2 = Cmd.none := by
  rcases h with ⟨hs, hc⟩ | ⟨hs, hc⟩
  all_goals
    have h1 : update m (Msg.key Key.enter) =
        handleComponentUpdates { m with error := "", success := "" } (Msg.key Key.enter) := by
      simp [update, Key.string, handleEnter, hs, hc]
  all_goals
    refine ⟨?_, ?_, ?_⟩
    · rw [h1, hcu_state]
    · rw [h1, hcu_activeTimer]
    · rw [h1, hcu_cmd]

/-- SelectingProject with an empty candidate list. -/
def c8Model : Model := { initialModel with state := "select_project" }

theorem c8_witness :
    (c8Model.state = "select_project" ∧
     ¬ (0 < c8Model.projects.length ∧ 0 ≤ c8Model.projectList.index ∧
        c8Model.projectList.index < (c8Model.projects.length : Int))) ∧
    ((update c8Model (Msg.key Key.enter)).1.state = c8Model.state ∧
     (update c8Model (Msg.key Key.enter)).1.activeTimer = c8Model.activeTimer ∧
     (update c8Model (Msg.key Key.enter)).2 = Cmd.none) :=
  ⟨⟨rfl, by decide⟩, c8_invalid_select_noop c8Model (Or.inl ⟨rfl, by decide⟩)⟩

/-! ### C9 -/

/-- C9: the help-toggle event flips only the overlay flag and issues no
command, from every state; applying it twice returns the model exactly to
what it was, so the underlying state (state variant, selections,
activeTimer, notes input) is untouched. -/
theorem c9_help_toggle_involution (m : Model) :
    update m (Msg.key (Key.runes ['?'])) =
      ({ m with showHelp := !m.showHelp }, Cmd.none) ∧
    (update (update m (Msg.key (Key.runes ['?']))).1 (Msg.key (Key.runes ['?']))).1 = m := by
  have h1 : ∀ m' : Model, update m' (Msg.key (Key.runes ['?'])) =
      ({ m' with showHelp := !m'.showHelp }, Cmd.none) := by
    intro m'
    simp [update, Key.string]
  refine ⟨h1 m, ?_⟩
  simp [h1, Bool.not_not]

/-! ### C7 -/

/-- C7: a failure event delivered to the engine issues no command and
preserves the selected project, the selected task, and activeTimer; the
message is recorded, and the resulting state is either the Error state
(always so when the failure arrives during project-list or task-list
loading) or the unchanged state variant with the message rendered inline
by the view. -/
theorem c7_failure_preserves_selections (m : Model) (s : String) (hs : s ≠ "") :
    (update m (Msg.errorMsg s)).2 = Cmd.none ∧
    (update m (Msg.errorMsg s)).1.selectedProject = m.selectedProject ∧
    (update m (Msg.errorMsg s)).1.selectedTask = m.selectedTask ∧
    (update m (Msg.errorMsg s)).1.activeTimer = m.activeTimer ∧
    (update m (Msg.errorMsg s)).1.error = s ∧
    ((m.state = "loading_projects" ∨ m.state = "loading_tasks") →
      (update m (Msg.errorMsg s)).1.state = "error") ∧
    ((update m (Msg.errorMsg s)).1.state = "error" ∨
     ((update m (Msg.errorMsg s)).1.state = m.state ∧
      showsInlineError (update m (Msg.errorMsg s)).1 = true)) := by
  have hupd : update m (Msg.errorMsg s) =
      handleComponentUpdates
        { m with error := s,
                 state := if m.state = "loading_projects" ∨ m.state = "loading_tasks"
                          then "error" else m.state }
        (Msg.errorMsg s) := rfl
  have hst : (update m (Msg.errorMsg s)).1.state =
      (if m.state = "loading_projects" ∨ m.state = "loading_tasks"
       then "error" else m.state) := by
    rw [hupd, hcu_state]
  have herr : (update m (Msg.errorMsg s)).1.error = s := by
    rw [hupd, hcu_error]
  refine ⟨by rw [hupd, hcu_cmd], by rw [hupd, hcu_selectedProject],
          by rw [hupd, hcu_selectedTask], by rw [hupd, hcu_activeTimer], herr, ?_, ?_⟩
  · intro hc
    rw [hst, if_pos hc]
  · by_cases hc : m.state = "loading_projects" ∨ m.state = "loading_tasks"
    · left
      rw [hst, if_pos hc]
    · by_cases he : m.state = "error"
      · left
        rw [hst, if_neg hc, he]
      · right
        refine ⟨by rw [hst, if_neg hc], ?_⟩
        simp only [showsInlineError]
        rw [herr, hst, if_neg hc]
        simp only [Bool.and_eq_true, bne_iff_ne]
        exact ⟨hs, he⟩

theorem c7_witness :
    ("boom" : String) ≠ "" ∧
    ((update initialModel (Msg.errorMsg "boom")).2 = Cmd.none ∧
     (update initialModel (Msg.errorMsg "boom")).1.selectedProject =
       initialModel.selectedProject ∧
     (update initialModel (Msg.errorMsg "boom")).1.selectedTask =
       initialModel.selectedTask ∧
     (update initialModel (Msg.errorMsg "boom")).1.activeTimer =
       initialModel.activeTimer ∧
     (update initialModel (Msg.errorMsg "boom")).1.error = "boom" ∧
     ((initialModel.state = "loading_projects" ∨ initialModel.state = "loading_tasks") →
       (update initialModel (Msg.errorMsg "boom")).1.state = "error") ∧
     ((update initialModel (Msg.errorMsg "boom")).1.state = "error" ∨
      ((update initialModel (Msg.errorMsg "boom")).1.state = initialModel.state ∧
       showsInlineError (update initialModel (Msg.errorMsg "boom")).1 = true))) :=
  ⟨by decide, c7_failure_preserves_selections initialModel "boom" (by decide)⟩

/-! ### C6 -/

theorem handleEnter_fetchTasks_nonempty (m : Model) (msg : Msg) (pid : Int)
    (h : (handleEnter m msg).2 = Cmd.fetchTasks pid) : m.projects ≠ [] := by
  unfold handleEnter at h
  by_cases h1 : m.state = "select_project"
  · rw [if_pos h1] at h
    by_cases h2 : 0 < m.projects.length ∧ 0 ≤ m.projectList.index ∧
        m.projectList.index < (m.projects.length : Int)
    · exact List.length_pos.mp h2.1
    · rw [if_neg h2, hcu_cmd] at h
      simp at h
  · rw [if_neg h1] at h
    by_cases h2 : m.state = "select_task"
    · rw [if_pos h2] at h
      split at h
      · simp at h
      · rw [hcu_cmd] at h
        simp at h
    · rw [if_neg h2] at h
      by_cases h3 : m.state = "enter_details"
      · rw [if_pos h3] at h
        split at h
        · simp at h
        · split at h <;> simp at h
      · rw [if_neg h3, hcu_cmd] at h
        simp at h

theorem update_fetchTasks_nonempty (m : Model) (e : Msg) (pid : Int)
    (h : (update m e).2 = Cmd.fetchTasks pid) : m.projects ≠ [] := by
  cases e with
  | key k =>
    simp only [update] at h
    by_cases h1 : k.string = "ctrl+c" ∨ k.string = "q"
    · rw [if_pos h1] at h
      simp at h
    · rw [if_neg h1] at h
      by_cases h2 : k.string = "?"
      · rw [if_pos h2] at h
        simp at h
      · rw [if_neg h2] at h
        by_cases h3 : k.string = "esc"
        · rw [if_pos h3] at h
          by_cases h4 : m.showHelp = true
          · rw [if_pos h4] at h
            simp at h
          · rw [if_neg h4] at h
            by_cases h5 : m.state = "select_task"
            · rw [if_pos h5] at h
              simp at h
            · rw [if_neg h5] at h
              by_cases h6 : m.state = "enter_details"
              · rw [if_pos h6] at h
                simp at h
              · rw [if_neg h6, hcu_cmd] at h
                simp at h
        · rw [if_neg h3] at h
          by_cases h7 : k.string = "enter"
          · rw [if_pos h7] at h
            have h8 := handleEnter_fetchTasks_nonempty _ _ _ h
            exact h8
          · rw [if_neg h7, hcu_cmd] at h
            simp at h
  | fetchProjectsMsg ps =>
    simp only [update] at h
    rw [hcu_cmd] at h
    simp at h
  | fetchTasksMsg ts =>
    simp only [update] at h
    rw [hcu_cmd] at h
    simp at h
  | startTimerMsg t =>
    simp only [update] at h
    rw [hcu_cmd] at h
    simp at h
  | stopTimerMsg ok =>
    simp only [update] at h
    rw [hcu_cmd] at h
    simp at h
  | errorMsg s =>
    simp only [update] at h
    rw [hcu_cmd] at h
    simp at h
  | windowSize w ht =>
    simp only [update] at h
    rw [hcu_cmd] at h
    simp at h

theorem handleEnter_projects (m : Model) (msg : Msg) :
    (handleEnter m msg).1.projects = m.projects := by
  unfold handleEnter
  repeat' split
  all_goals first
    | rfl
    | rw [hcu_projects]

/-- The projects field is written only by the projects-arrival message. -/
theorem update_projects_preserved (m : Model) (e : Msg) :
    (update m e).1.projects = m.projects ∨
      ∃ ps, e = Msg.fetchProjectsMsg ps ∧ (update m e).1.projects = ps := by
  cases e with
  | fetchProjectsMsg ps =>
    right
    refine ⟨ps, rfl, ?_⟩
    simp only [update]
    rw [hcu_projects]
  | key k =>
    left
    simp only [update]
    repeat' split
    all_goals first
      | rfl
      | rw [hcu_projects]
      | rw [handleEnter_projects]
  | fetchTasksMsg ts =>
    left
    simp only [update]
    rw [hcu_projects]
  | startTimerMsg t =>
    left
    simp only [update]
    rw [hcu_projects]
  | stopTimerMsg ok =>
    left
    simp only [update]
    rw [hcu_projects]
    split <;> rfl
  | errorMsg s =>
    left
    simp only [update]
    rw [hcu_projects]
  | windowSize w ht =>
    left
    simp only [update]
    rw [hcu_projects]

theorem runEvents_projects_source (es : List Msg) :
    ∀ m : Model, (runEvents m es).projects ≠ [] →
      m.projects ≠ [] ∨ ∃ ps, Msg.fetchProjectsMsg ps ∈ es ∧ ps ≠ [] := by
  induction es with
  | nil =>
    intro m h
    exact Or.inl h
  | cons e rest ih =>
    intro m h
    rcases ih (update m e).1 h with h1 | ⟨ps, hmem, hne⟩
    · rcases update_projects_preserved m e with heq | ⟨ps, he, heq⟩
      · left
        rwa [heq] at h1
      · right
        refine ⟨ps, ?_, by rwa [heq] at h1⟩
        rw [he]
        exact List.mem_cons_self _ _
    · exact Or.inr ⟨ps, List.mem_cons_of_mem _ hmem, hne⟩

/-- C6: starting from the initial LoadingProjects state, for every event
sequence, a transition that issues fetchTasks (listRecentTasks) can only
happen after a fetchProjectsMsg carrying at least one project was
delivered, i.e. after listRecentProjects successfully returned a non-empty
project list. -/
theorem c6_no_fetchTasks_before_projects (es : List Msg) (e : Msg) (pid : Int)
    (h : (update (runEvents initialModel es) e).2 = Cmd.fetchTasks pid) :
    ∃ ps, Msg.fetchProjectsMsg ps ∈ es ∧ ps ≠ [] := by
  have hne := update_fetchTasks_nonempty _ _ _ h
  rcases runEvents_projects_source es initialModel hne with h1 | h2
  · exact absurd rfl h1
  · exact h2

/-- A trace in which the project list has arrived non-empty and the user
then selects the highlighted project. -/
def c6Trace : List Msg := [Msg.fetchProjectsMsg [{ id := 1, name := "Alpha" }]]

theorem c6_witness :
    (update (runEvents initialModel c6Trace) (Msg.key Key.enter)).2 = Cmd.fetchTasks 1 ∧
    ∃ ps, Msg.fetchProjectsMsg ps ∈ c6Trace ∧ ps ≠ [] :=
  ⟨by decide, c6_no_fetchTasks_before_projects c6Trace (Msg.key Key.enter) 1 (by decide)⟩

/-! ### C10 -/

theorem textInput_update_no_q (ti : TextInput) (msg : Msg)
    (hq : 'q' ∉ ti.value)
    (hmsg : ∀ cs, msg = Msg.key (Key.runes cs) → 'q' ∉ cs) :
    'q' ∉ (ti.update msg).value := by
  unfold TextInput.update
  split
  · rename_i cs
    split
    · intro hmem
      rcases List.mem_append.mp hmem with hlft | hrgt
      · exact hq hlft
      · exact hmsg cs rfl hrgt
    · exact hq
  · split
    · intro hmem
      exact hq ((List.dropLast_sublist ti.value).subset hmem)
    · exact hq
  · exact hq

theorem hcu_no_q (m : Model) (msg : Msg)
    (hq : 'q' ∉ m.ticketInput.value)
    (hmsg : ∀ cs, msg = Msg.key (Key.runes cs) → 'q' ∉ cs) :
    'q' ∉ (handleComponentUpdates m msg).1.ticketInput.value := by
  unfold handleComponentUpdates
  split
  · exact textInput_update_no_q m.ticketInput msg hq hmsg
  · split
    · exact hq
    · split
      · exact hq
      · exact hq

theorem handleEnter_no_q (m : Model) (msg : Msg)
    (hq : 'q' ∉ m.ticketInput.value)
    (hmsg : ∀ cs, msg = Msg.key (Key.runes cs) → 'q' ∉ cs) :
    'q' ∉ (handleEnter m msg).1.ticketInput.value := by
  unfold handleEnter
  split
  · split
    · exact hq
    · exact hcu_no_q _ _ hq hmsg
  · split
    · split
      · exact hq
      · exact hcu_no_q _ _ hq hmsg
    · split
      · split
        · exact hq
        · split <;> exact hq
      · exact hcu_no_q _ _ hq hmsg

theorem update_no_q (m : Model) (e : Msg) (ht : typedMsg e = true)
    (hq : 'q' ∉ m.ticketInput.value) :
    'q' ∉ (update m e).1.ticketInput.value := by
  cases e with
  | key k =>
    simp only [update]
    by_cases h1 : k.string = "ctrl+c" ∨ k.string = "q"
    · rw [if_pos h1]
      exact hq
    · rw [if_neg h1]
      have hmsg : ∀ cs, Msg.key k = Msg.key (Key.runes cs) → 'q' ∉ cs := by
        intro cs hcs hmem
        have hk : k = Key.runes cs := by injection hcs
        subst hk
        have hlen : cs.length = 1 := by simpa [typedMsg] using ht
        rcases List.length_eq_one.mp hlen with ⟨c, rfl⟩
        have hcq : c = 'q' := by
          have := hmem
          simp at this
          exact this.symm
        subst hcq
        exact h1 (Or.inr (by decide))
      by_cases h2 : k.string = "?"
      · rw [if_pos h2]
        exact hq
      · rw [if_neg h2]
        by_cases h3 : k.string = "esc"
        · rw [if_pos h3]
          by_cases h4 : m.showHelp = true
          · rw [if_pos h4]
            exact hq
          · rw [if_neg h4]
            by_cases h5 : m.state = "select_task"
            · rw [if_pos h5]
              exact hq
            · rw [if_neg h5]
              by_cases h6 : m.state = "enter_details"
              · rw [if_pos h6]
                exact hq
              · rw [if_neg h6]
                exact hcu_no_q _ _ hq hmsg
        · rw [if_neg h3]
          by_cases h7 : k.string = "enter"
          · rw [if_pos h7]
            exact handleEnter_no_q _ _ hq hmsg
          · rw [if_neg h7]
            exact hcu_no_q _ _ hq hmsg
  | fetchProjectsMsg ps =>
    simp only [update]
    refine hcu_no_q _ _ hq ?_
    intro cs hcs
    exact absurd hcs (by simp)
  | fetchTasksMsg ts =>
    simp only [update]
    refine hcu_no_q _ _ hq ?_
    intro cs hcs
    exact absurd hcs (by simp)
  | startTimerMsg t =>
    simp only [update]
    refine hcu_no_q _ _ hq ?_
    intro cs hcs
    exact absurd hcs (by simp)
  | stopTimerMsg ok =>
    simp only [update]
    refine hcu_no_q _ _ ?_ ?_
    · split <;> exact hq
    · intro cs hcs
      exact absurd hcs (by simp)
  | errorMsg s =>
    simp only [update]
    refine hcu_no_q _ _ hq ?_
    intro cs hcs
    exact absurd hcs (by simp)
  | windowSize w hgt =>
    simp only [update]
    refine hcu_no_q _ _ hq ?_
    intro cs hcs
    exact absurd hcs (by simp)

theorem runEvents_no_q (es : List Msg) :
    ∀ m : Model, (∀ e ∈ es, typedMsg e = true) → 'q' ∉ m.ticketInput.value →
      'q' ∉ (runEvents m es).ticketInput.value := by
  induction es with
  | nil =>
    intro m _ hq
    exact hq
  | cons e rest ih =>
    intro m hall hq
    exact ih (update m e).1 (fun x hx => hall x (List.mem_cons_of_mem _ hx))
      (update_no_q m e (hall e (List.mem_cons_self _ _)) hq)

/-- C10: a keypress carrying exactly the letter q is consumed by the quit
handler before the focused notes input can see it - the model only sets
the quitting flag, tea.Quit is issued and the notes value is untouched -
and consequently along every event trace from the initial model made of
directly typed keys (single-rune keypresses), the notes value never
contains the letter q. -/
theorem c10_q_quits_before_input (m : Model) :
    update m (Msg.key (Key.runes ['q'])) = ({ m with quitting := true }, Cmd.quit) ∧
    (∀ es : List Msg, (∀ e ∈ es, typedMsg e = true) →
      'q' ∉ (runEvents initialModel es).ticketInput.value) := by
  constructor
  · simp only [update]
    rw [if_pos (Or.inr (show Key.string (Key.runes ['q']) = "q" from rfl))]
  · intro es hall
    refine runEvents_no_q es initialModel hall ?_
    simp [initialModel]

/-- A typed trace that walks the whole workflow and types a letter. -/
def c10Trace : List Msg :=
  [Msg.fetchProjectsMsg [{ id := 1, name := "Alpha" }], Msg.key Key.enter,
   Msg.fetchTasksMsg [taskA], Msg.key Key.enter, Msg.key (Key.runes ['x'])]

theorem c10_witness :
    update initialModel (Msg.key (Key.runes ['q'])) =
      ({ initialModel with quitting := true }, Cmd.quit) ∧
    (∀ e ∈ c10Trace, typedMsg e = true) ∧
    'q' ∉ (runEvents initialModel c10Trace).ticketInput.value :=
  ⟨(c10_q_quits_before_input initialModel).1, by decide,
   (c10_q_quits_before_input initialModel).2 c10Trace (by decide)⟩

end HarvestTui
